import Mathlib

/-!
Shallow embedding of the core of the `ficture-rs` map generator:
the grid-transform engine (`src/src/map.rs`), the fractal simplex
noise field (`src/src/noise.rs`), the hierarchical color evaluator
(`src/src/lib/color.rs`), the configuration validator
(`src/src/lib/config.rs`) and the `normalize` helper
(`src/src/lib/utils.rs`).

Real-number (`f64`) arithmetic is embedded at exact rational
semantics (`ℚ`); the IEEE special values matter only for the
degenerate-normalization claim, for which a dedicated extended-value
type `FVal` models NaN and the infinities.  External primitives that
are not part of this repository (the 3D simplex noise function, the
trigonometric functions and the `f64` constant `2π`) are abstract
parameters of the corresponding definitions.
-/

namespace Ficture

/-! ## Grid engine: `src/src/map.rs` -/

/-- Embedding of `Map<T>`: width, height and the dense row-major cell
vector (`inner`). -/
structure Map (T : Type) where
  width : ℕ
  height : ℕ
  inner : List T
deriving Repr, DecidableEq

/-- Well-formedness invariant of a grid: the cell vector has exactly
`width * height` entries (always true of maps built by the engine). -/
def Map.WF {T : Type} (m : Map T) : Prop :=
  m.inner.length = m.width * m.height

/-- Embedding of `Map::return_single`: a grid whose `width*height`
cells all hold `value` (`vec![value; width * height]`). -/
def Map.return_single {T : Type} (value : T) (width height : ℕ) : Map T :=
  ⟨width, height, List.replicate (width * height) value⟩

/-- Embedding of `Map::and_then`: map `f` over every cell.  The Rust
code runs the map through a rayon parallel iterator whose `collect`
keeps logical order, so the sequential `List.map` is its semantics. -/
def Map.and_then {T U : Type} (m : Map T) (f : T → U) : Map U :=
  ⟨m.width, m.height, m.inner.map f⟩

/-- Embedding of `Map::and_then_with_coordinates`: for each `y` in
`0..height` and `x` in `0..width` (rayon's ordered nested parallel
iteration), the output cell is `f inner[y*width+x] x y`.  Out-of-range
indexing panics in Rust; the embedding totalizes it with `getD` and
theorems assume `Map.WF`, under which the default is never read. -/
def Map.and_then_with_coordinates {T U : Type} [Inhabited T]
    (m : Map T) (f : T → ℕ → ℕ → U) : Map U :=
  ⟨m.width, m.height,
    (List.range m.height).flatMap fun y =>
      (List.range m.width).map fun x =>
        f (m.inner.getD (y * m.width + x) default) x y⟩

/-- Embedding of `Map::extract`: hand the flat cell vector and the
dimensions to the sink `f`. -/
def Map.extract {T U : Type} (m : Map T) (f : List T → ℕ → ℕ → U) : U :=
  f m.inner m.width m.height

/-! ## `normalize`: `src/src/lib/utils.rs` -/

/-- Embedding of `utils::normalize` at exact rational semantics:
`(value - min) / (max - min)`. -/
def normalize (value min max : ℚ) : ℚ :=
  (value - min) / (max - min)

/-- Extended value type modelling the `f64` special values that the
degenerate use of `normalize` produces: NaN, the two infinities, and
finite values at exact rational semantics.  `inf false` is `+∞`,
`inf true` is `-∞`.  Signed zero is collapsed to `fin 0`; no claim
in scope distinguishes `+0.0` from `-0.0`. -/
inductive FVal where
  | nan : FVal
  | inf : Bool → FVal
  | fin : ℚ → FVal
deriving Repr, DecidableEq

/-- IEEE-754 subtraction on `FVal` (exact in the finite case). -/
def FVal.sub : FVal → FVal → FVal
  | .nan, _ => .nan
  | _, .nan => .nan
  | .inf s, .inf t => if s = t then .nan else .inf s
  | .inf s, .fin _ => .inf s
  | .fin _, .inf s => .inf (!s)
  | .fin a, .fin b => .fin (a - b)

/-- IEEE-754 division on `FVal` (exact in the finite case):
`0/0 = NaN`, `a/0 = ±∞` for finite `a ≠ 0`, `±∞/±∞ = NaN`,
finite over infinite is `0`. -/
def FVal.div : FVal → FVal → FVal
  | .nan, _ => .nan
  | _, .nan => .nan
  | .inf _, .inf _ => .nan
  | .inf s, .fin b => .inf (xor s (decide (b < 0)))
  | .fin _, .inf _ => .fin 0
  | .fin a, .fin b =>
    if b = 0 then (if a = 0 then .nan else .inf (decide (a < 0)))
    else .fin (a / b)

/-- Embedding of `utils::normalize` at IEEE `f64` special-value
semantics: `(value - min) / (max - min)` over `FVal`. -/
def normalizeF (value min max : FVal) : FVal :=
  (value.sub min).div (max.sub min)

/-! ## Noise field: `src/src/noise.rs` -/

/-- Embedding of `SimplexNoiseGenerator`: the precomputed per-octave
frequency and amplitude tables, the per-column circle coordinates for
the seamless east-west wrap, and the underlying 3D noise primitive.
The primitive (`noise::Simplex`, an external crate) is kept abstract
as the function field `noise`. -/
structure SimplexNoiseGenerator where
  height : ℕ
  octaves : ℕ
  frequencies : List ℚ
  amplitudes : List ℚ
  circle_coords : List (ℚ × ℚ)
  noise : ℚ → ℚ → ℚ → ℚ

/-- Amplitude table of `SimplexNoiseGenerator::new`: starting from the
accumulator `a`, push the current amplitude and divide it by
`persistence` for the next octave (cumulative division). -/
def ampTable (persistence : ℚ) : ℕ → ℚ → List ℚ
  | 0, _ => []
  | n + 1, a => a :: ampTable persistence n (a / persistence)

/-- Embedding of `SimplexNoiseGenerator::new`.  The `f64` functions
`cos` and `sin` and the `f64` constant `std::f64::consts::PI` are
abstract parameters (`cosA`, `sinA`, `piA`), as is the noise
primitive `noise3`: `frequencies[o] = lacunarity^o`, `amplitudes` by
cumulative division, and
`circle_coords[x] = (cos(angle)/aspect, sin(angle)/aspect)` with
`angle = (x/width)·2·π` and `aspect = width/height`. -/
def SimplexNoiseGenerator.new (cosA sinA : ℚ → ℚ) (piA : ℚ)
    (noise3 : ℚ → ℚ → ℚ → ℚ) (width height octaves : ℕ)
    (persistence lacunarity : ℚ) : SimplexNoiseGenerator :=
  let aspect_ratio : ℚ := (width : ℚ) / (height : ℚ)
  { height := height
    octaves := octaves
    frequencies := (List.range octaves).map fun o => lacunarity ^ o
    amplitudes := ampTable persistence octaves 1
    circle_coords := (List.range width).map fun (x : ℕ) =>
      let scale_x : ℚ := (x : ℚ) / (width : ℚ)
      let angle := scale_x * 2 * piA
      (cosA angle / aspect_ratio, sinA angle / aspect_ratio)
    noise := noise3 }

/-- Embedding of `SimplexNoiseGenerator::generate`: accumulate
`amplitude · noise(freq·circleX, freq·scaleY, freq·circleZ)` over the
octaves and square the sum (`elevation.powf(2.0)`). -/
def SimplexNoiseGenerator.generate (g : SimplexNoiseGenerator)
    (x y : ℕ) : ℚ :=
  let scale_y : ℚ := (y : ℚ) / (g.height : ℚ)
  let c := g.circle_coords.getD x (0, 0)
  let elevation := (List.range g.octaves).foldl
    (fun acc octave =>
      let frequency := g.frequencies.getD octave 0
      let amplitude := g.amplitudes.getD octave 0
      acc + amplitude * g.noise (frequency * c.1) (frequency * scale_y)
        (frequency * c.2))
    0
  elevation ^ 2

/-! ## Colors and gradients: `src/src/lib/color.rs` -/

/-- Embedding of `colorgrad::Color` (alpha omitted: unused by the
code in scope): channels as exact rationals in `[0,1]`. -/
structure Color where
  r : ℚ
  g : ℚ
  b : ℚ
deriving Repr, DecidableEq

/-- Embedding of `image::Rgb<u8>`: three 8-bit channels as naturals
(all constructors in this file produce values `≤ 255`). -/
structure Rgb where
  r : ℕ
  g : ℕ
  b : ℕ
deriving Repr, DecidableEq

/-- Value of one hexadecimal digit, `none` on a non-hex character. -/
def hexDigitVal (c : Char) : Option ℕ :=
  if '0' ≤ c ∧ c ≤ '9' then some (c.toNat - '0'.toNat)
  else if 'a' ≤ c ∧ c ≤ 'f' then some (c.toNat - 'a'.toNat + 10)
  else if 'A' ≤ c ∧ c ≤ 'F' then some (c.toNat - 'A'.toNat + 10)
  else none

/-- Modelled from the spec: `colorgrad::Color::from_html` is an
external crate function whose source is not part of this repository;
the spec's configuration schema feeds it `<hex-color>` strings, so it
is modelled as a parser of `#rrggbb` strings, each channel byte
divided by 255. -/
def colorFromHtml (s : String) : Option Color :=
  match s.toList with
  | ['#', r1, r2, g1, g2, b1, b2] => do
    let hr1 ← hexDigitVal r1
    let hr2 ← hexDigitVal r2
    let hg1 ← hexDigitVal g1
    let hg2 ← hexDigitVal g2
    let hb1 ← hexDigitVal b1
    let hb2 ← hexDigitVal b2
    some { r := ((16 * hr1 + hr2 : ℕ) : ℚ) / 255,
           g := ((16 * hg1 + hg2 : ℕ) : ℚ) / 255,
           b := ((16 * hb1 + hb2 : ℕ) : ℚ) / 255 }
  | _ => none

/-- A built gradient: its ordered color stops. -/
abbrev Gradient := List Color

/-- Linear interpolation of two colors, channel by channel. -/
def Color.lerp (c d : Color) (s : ℚ) : Color :=
  { r := c.r + (d.r - c.r) * s,
    g := c.g + (d.g - c.g) * s,
    b := c.b + (d.b - c.b) * s }

/-- Modelled from the spec: `colorgrad::Gradient::at` is an external
crate function whose source is not part of this repository; the spec
states that the stops are evenly spaced across `[0,1]`, interpolation
between the two bracketing stops is linear, and `t` outside `[0,1]`
clamps to the nearest endpoint color.  The empty-gradient case never
arises from a validated configuration and returns black. -/
def Gradient.at (gr : Gradient) (t : ℚ) : Color :=
  match gr with
  | [] => ⟨0, 0, 0⟩
  | [c] => c
  | cs =>
    let t' := max 0 (min 1 t)
    let n := cs.length
    let scaled := t' * ((n : ℚ) - 1)
    let i := min (⌊scaled⌋).toNat (n - 2)
    Color.lerp (cs.getD i ⟨0, 0, 0⟩) (cs.getD (i + 1) ⟨0, 0, 0⟩)
      (scaled - (i : ℚ))

/-- Embedding of the Rust saturating cast `as u8` applied to an `f64`
channel value: truncate toward zero, then clamp to `[0,255]`.  After
clamping to a nonnegative value, truncation toward zero agrees with
`Rat.floor`, so the clamp-of-floor form is exact. -/
def f64AsU8 (x : ℚ) : ℕ :=
  (min 255 (max 0 ⌊x⌋)).toNat

/-- Embedding of `gradient_to_rgb` (`src/src/lib/color.rs`): sample
the gradient at `x` and convert each channel with
`(channel * 255.0) as u8`. -/
def gradient_to_rgb (gr : Gradient) (x : ℚ) : Rgb :=
  let color := gr.at x
  ⟨f64AsU8 (color.r * 255), f64AsU8 (color.g * 255),
    f64AsU8 (color.b * 255)⟩

/-- Embedding of `get_color_func`: parse every color string of the
configured gradient (failing with `ColorError::InvalidGradient`,
here `none`, on the first unparsable one) and build the gradient.
The Rust closure `|x| gradient_to_rgb(&gradient, x)` is represented
by the built gradient itself, applied through `gradient_to_rgb`. -/
def get_color_func (gradient : List String) : Option Gradient :=
  match gradient with
  | [] => some []
  | c :: cs => do
    let col ← colorFromHtml c
    let rest ← get_color_func cs
    some (col :: rest)

/-! ## Configuration: `src/src/lib/config.rs` -/

/-- Embedding of `config::MoistureLevel`. -/
structure MoistureLevel where
  moisture : ℚ
  gradient : List String
deriving Repr, DecidableEq

/-- Embedding of `config::ElevationLevel`. -/
structure ElevationLevel where
  elevation : ℚ
  moisture_levels : List MoistureLevel
deriving Repr, DecidableEq

/-- Embedding of `config::Biomes`. -/
structure Biomes where
  elevation_levels : List ElevationLevel
deriving Repr, DecidableEq

/-- Embedding of `config::SimpleBiome`. -/
structure SimpleBiome where
  gradient : List String
deriving Repr, DecidableEq

/-- Embedding of `config::Noise`. -/
structure Noise where
  octaves : ℕ
  persistence : ℚ
  lacunarity : ℚ
deriving Repr, DecidableEq

/-- Embedding of `config::Config`; the `HashMap`s become association
lists (validation walks every entry, so only membership matters). -/
structure Config where
  biomes : List (String × SimpleBiome)
  noise_generators : List (String × Noise)
  biome_maps : List (String × Biomes)
deriving Repr, DecidableEq

/-- Embedding of `ElevationLevel::total_moisture`: fold of the
moisture weights starting at `0.0`. -/
def ElevationLevel.total_moisture (l : ElevationLevel) : ℚ :=
  l.moisture_levels.foldl (fun acc level => acc + level.moisture) 0

/-- Embedding of `Biomes::total_elevation`: fold of the elevation
weights starting at `0.0`. -/
def Biomes.total_elevation (b : Biomes) : ℚ :=
  b.elevation_levels.foldl (fun acc level => acc + level.elevation) 0

/-! ## Color evaluator: `src/src/lib/color.rs` -/

/-- Embedding of `MoistureGradient`: the cumulative normalized
moisture threshold and the gradient behind the `get_color` closure. -/
structure MoistureGradient where
  moisture : ℚ
  get_color : Gradient
deriving Repr, DecidableEq

/-- Embedding of `ElevationRange`: the cumulative normalized
elevation threshold and its moisture gradients. -/
structure ElevationRange where
  elevation : ℚ
  moisture_gradients : List MoistureGradient
deriving Repr, DecidableEq

/-- Embedding of `ColorEvaluator`. -/
structure ColorEvaluator where
  elevation_ranges : List ElevationRange
deriving Repr, DecidableEq

/-- Inner loop of `ColorEvaluator::from_biomes`: walk the moisture
levels accumulating `cumulative_moisture`, pairing each with the
threshold `cumulative_moisture / total` and its parsed gradient. -/
def buildMoistureGradients (total : ℚ) :
    ℚ → List MoistureLevel → Option (List MoistureGradient)
  | _, [] => some []
  | cumulative, level :: rest => do
    let cumulative2 := cumulative + level.moisture
    let gr ← get_color_func level.gradient
    let tail ← buildMoistureGradients total cumulative2 rest
    some ({ moisture := cumulative2 / total, get_color := gr } :: tail)

/-- Outer loop of `ColorEvaluator::from_biomes`: walk the elevation
levels accumulating `cumulative_elevation`, pairing each with the
threshold `cumulative_elevation / total` and its moisture
gradients. -/
def buildElevationRanges (total : ℚ) :
    ℚ → List ElevationLevel → Option (List ElevationRange)
  | _, [] => some []
  | cumulative, level :: rest => do
    let cumulative2 := cumulative + level.elevation
    let mgs ← buildMoistureGradients level.total_moisture 0
      level.moisture_levels
    let tail ← buildElevationRanges total cumulative2 rest
    some ({ elevation := cumulative2 / total,
            moisture_gradients := mgs } :: tail)

/-- Embedding of `ColorEvaluator::from_biomes`; `none` corresponds to
the `ColorResult` error of an unparsable gradient color. -/
def ColorEvaluator.from_biomes (b : Biomes) : Option ColorEvaluator := do
  let ranges ← buildElevationRanges b.total_elevation 0 b.elevation_levels
  some ⟨ranges⟩

/-- Inner loop of `ColorEvaluator::evaluate`: find the first moisture
gradient with `moisture ≤ threshold` and color the normalized
elevation with it; if none matches, the Rust loop falls through and
`final_color` keeps its initial value `Rgb([0, 0, 0])`. -/
def evalMoistureLoop (elevation moisture cumulative bandElevation : ℚ) :
    List MoistureGradient → Rgb
  | [] => ⟨0, 0, 0⟩
  | mg :: rest =>
    if moisture ≤ mg.moisture then
      gradient_to_rgb mg.get_color
        (normalize elevation cumulative (cumulative + bandElevation))
    else evalMoistureLoop elevation moisture cumulative bandElevation rest

/-- Outer loop of `ColorEvaluator::evaluate`: find the first
elevation range with `elevation ≤ threshold`, tracking
`cumulative_elevation` as the sum of the *thresholds* of the ranges
already skipped (exactly as the source does); if none matches, the
initial `Rgb([0, 0, 0])` is returned. -/
def evalElevationLoop (elevation moisture : ℚ) :
    ℚ → List ElevationRange → Rgb
  | _, [] => ⟨0, 0, 0⟩
  | cumulative, range :: rest =>
    if elevation ≤ range.elevation then
      evalMoistureLoop elevation moisture cumulative range.elevation
        range.moisture_gradients
    else evalElevationLoop elevation moisture (cumulative + range.elevation) rest

/-- Embedding of `ColorEvaluator::evaluate`. -/
def ColorEvaluator.evaluate (ev : ColorEvaluator)
    (elevation moisture : ℚ) : Rgb :=
  evalElevationLoop elevation moisture 0 ev.elevation_ranges

/-! ## Validation: `src/src/lib/config.rs` -/

/-- Embedding of `config::ConfigError`. -/
inductive ConfigError where
  | InvalidFilePath : String → ConfigError
  | InvalidPersistence : ℚ → ConfigError
  | InvalidLacunarity : ℚ → ConfigError
  | InvalidElevation : ℚ → ConfigError
  | InvalidMoisture : ℚ → ConfigError
  | InvalidColor : String → ConfigError
  | MissingElevationLevels : ConfigError
  | MissingMoistureLevels : ConfigError
  | MissingColors : ConfigError
  | FailedToParse : ConfigError
deriving Repr, DecidableEq

/-- Embedding of `config::ConfigResult<T>`. -/
abbrev ConfigResult (T : Type) := Except ConfigError T

/-- Loop validating a gradient's color strings: the first color that
`Color::from_html` rejects raises `InvalidColor` with that string. -/
def validateColors : List String → ConfigResult Unit
  | [] => .ok ()
  | color :: rest =>
    match colorFromHtml color with
    | none => .error (.InvalidColor color)
    | some _ => validateColors rest

/-- Fold of a fallible validator over a list, stopping at the first
error (the shape of every `for … { x.validate()? }` loop in
`Config::validate` and its helpers). -/
def validateAll {α : Type} (f : α → ConfigResult Unit) :
    List α → ConfigResult Unit
  | [] => .ok ()
  | a :: rest => do
    f a
    validateAll f rest

/-- Embedding of `SimpleBiome::validate`. -/
def SimpleBiome.validate (b : SimpleBiome) : ConfigResult Unit :=
  if b.gradient.isEmpty then .error .MissingColors
  else validateColors b.gradient

/-- Embedding of `Noise::validate`. -/
def Noise.validate (n : Noise) : ConfigResult Unit :=
  if n.persistence ≤ 0 then .error (.InvalidPersistence n.persistence)
  else if n.lacunarity ≤ 0 then .error (.InvalidLacunarity n.lacunarity)
  else .ok ()

/-- Embedding of `MoistureLevel::validate`. -/
def MoistureLevel.validate (l : MoistureLevel) : ConfigResult Unit :=
  if l.moisture ≤ 0 then .error (.InvalidMoisture l.moisture)
  else if l.gradient.isEmpty then .error .MissingColors
  else validateColors l.gradient

/-- Embedding of `ElevationLevel::validate`. -/
def ElevationLevel.validate (l : ElevationLevel) : ConfigResult Unit :=
  if l.elevation ≤ 0 then .error (.InvalidElevation l.elevation)
  else if l.moisture_levels.isEmpty then .error .MissingMoistureLevels
  else validateAll MoistureLevel.validate l.moisture_levels

/-- Embedding of `Biomes::validate`. -/
def Biomes.validate (b : Biomes) : ConfigResult Unit :=
  if b.elevation_levels.isEmpty then .error .MissingElevationLevels
  else validateAll ElevationLevel.validate b.elevation_levels

/-- Embedding of `Config::validate`: biomes, then noise generators,
then biome maps, each entry in turn. -/
def Config.validate (c : Config) : ConfigResult Unit := do
  validateAll (fun pair => pair.2.validate) c.biomes
  validateAll (fun pair => pair.2.validate) c.noise_generators
  validateAll (fun pair => pair.2.validate) c.biome_maps

/-! ## Concrete configurations used to instantiate the theorems -/

/-- Black color. -/
def blackC : Color := ⟨0, 0, 0⟩

/-- White color. -/
def whiteC : Color := ⟨1, 1, 1⟩

/-- Black-to-white two-stop gradient, as configured color strings. -/
def bwStrings : List String := ["#000000", "#ffffff"]

/-- One elevation band (weight 1) with one moisture band (weight 1)
whose gradient is black-to-white. -/
def oneBandBW : Biomes := ⟨[⟨1, [⟨1, bwStrings⟩]⟩]⟩

/-- Two elevation bands (weight 1 each), each with one moisture band
(weight 1) whose gradient is black-to-white. -/
def twoBandBW : Biomes :=
  ⟨[⟨1, [⟨1, bwStrings⟩]⟩, ⟨1, [⟨1, bwStrings⟩]⟩]⟩

/-- One elevation band with one moisture band whose gradient is
all-white. -/
def allWhiteBand : Biomes := ⟨[⟨1, [⟨1, ["#ffffff", "#ffffff"]⟩]⟩]⟩

/-- The parsed black-to-white gradient. -/
def bwGradient : Gradient := [blackC, whiteC]

/-- The parsed all-white gradient. -/
def whiteGradient : Gradient := [whiteC, whiteC]

/-- The evaluator built from `oneBandBW`. -/
def oneBandEV : ColorEvaluator := ⟨[⟨1, [⟨1, bwGradient⟩]⟩]⟩

/-- The evaluator built from `twoBandBW` (cumulative normalized
thresholds `1/2` and `1`). -/
def twoBandEV : ColorEvaluator :=
  ⟨[⟨1/2, [⟨1, bwGradient⟩]⟩, ⟨1, [⟨1, bwGradient⟩]⟩]⟩

/-- The evaluator built from `allWhiteBand`. -/
def allWhiteEV : ColorEvaluator := ⟨[⟨1, [⟨1, whiteGradient⟩]⟩]⟩

/-! ## Helper lemmas -/

theorem length_flatMap_const {α : Type} (g : ℕ → List α) (w : ℕ)
    (hg : ∀ y, (g y).length = w) (n : ℕ) :
    ((List.range n).flatMap g).length = n * w := by
  induction n with
  | zero => simp
  | succ n ih =>
    rw [List.range_succ, List.flatMap_append, List.length_append, ih]
    simp [hg, Nat.succ_mul]

theorem flatMap_range_getElem? {α : Type} (g : ℕ → List α) (w : ℕ)
    (hg : ∀ y, (g y).length = w) (n x y : ℕ) (hx : x < w) (hy : y < n) :
    ((List.range n).flatMap g)[y * w + x]? = (g y)[x]? := by
  induction n with
  | zero => exact absurd hy (Nat.not_lt_zero y)
  | succ n ih =>
    rw [List.range_succ, List.flatMap_append, List.getElem?_append,
      length_flatMap_const g w hg n]
    by_cases h : y < n
    · have hlt : y * w + x < n * w := by
        have h1 : y * w + x < (y + 1) * w := by
          rw [Nat.succ_mul]
          omega
        have h2 : (y + 1) * w ≤ n * w := Nat.mul_le_mul_right w h
        omega
      rw [if_pos hlt]
      exact ih h
    · have hyn : y = n := by omega
      subst hyn
      have hge : ¬ (y * w + x < y * w) := by omega
      rw [if_neg hge]
      simp [hx]

/-! ## Theorems about the grid engine -/

/-- C5: `and_then` (mapValues) and `and_then_with_coordinates`
(mapWithCoordinates) keep the input's width and height, and for
every coordinate `(x, y)` with `x < width` and `y < height` the
output cell at row-major index `y * width + x` is `f` applied to the
input cell at that index (and to `(x, y)` in the coordinate-aware
case).  The embedding is the order-independent semantics of the
rayon pipeline: output placement is determined by coordinate
alone. -/
theorem map_transforms_pointwise {T U V : Type} [Inhabited T]
    (m : Map T) (f : T → U) (g : T → ℕ → ℕ → V) (x y : ℕ)
    (_hm : m.WF) (hx : x < m.width) (hy : y < m.height) :
    (m.and_then f).width = m.width ∧
    (m.and_then f).height = m.height ∧
    (m.and_then_with_coordinates g).width = m.width ∧
    (m.and_then_with_coordinates g).height = m.height ∧
    (m.and_then f).inner[y * m.width + x]? =
      (m.inner[y * m.width + x]?).map f ∧
    (m.and_then_with_coordinates g).inner[y * m.width + x]? =
      some (g (m.inner.getD (y * m.width + x) default) x y) := by
  refine ⟨rfl, rfl, rfl, rfl, ?_, ?_⟩
  · simp [Map.and_then, List.getElem?_map]
  · have hrow : ∀ y' : ℕ,
        ((List.range m.width).map fun x' =>
          g (m.inner.getD (y' * m.width + x') default) x' y').length =
          m.width := by
      intro y'
      simp
    rw [Map.and_then_with_coordinates]
    rw [flatMap_range_getElem? _ m.width hrow m.height x y hx hy]
    rw [List.getElem?_map, List.getElem?_range hx]
    rfl

/-- Witness for C5 at a concrete 2×2 grid. -/
theorem map_transforms_pointwise_witness :
    (Map.mk 2 2 [10, 11, 12, 13]).WF ∧ 1 < 2 ∧
    ((Map.mk 2 2 [10, 11, 12, 13]).and_then (· + 1)).inner[3]? =
      (((Map.mk 2 2 [10, 11, 12, 13]).inner)[3]?).map (· + 1) ∧
    ((Map.mk 2 2 [10, 11, 12, 13]).and_then_with_coordinates
        fun t x y => t + x + 10 * y).inner[3]? = some (13 + 1 + 10 * 1) := by
  have h := map_transforms_pointwise (Map.mk 2 2 [10, 11, 12, 13])
    (· + 1) (fun t x y => t + x + 10 * y) 1 1 (by unfold Map.WF; decide)
    (by decide) (by decide)
  exact ⟨by unfold Map.WF; decide, by decide, h.2.2.2.2.1, h.2.2.2.2.2⟩

/-- C8 counterexample: `Map::return_single` with width `0` does not
fail: it succeeds and returns the degenerate grid with an empty cell
vector (`vec![value; 0 * 5]`).  The source has no failing path (no
panic, assertion or error return) for zero dimensions, so the
embedding is a total function; the claimed loud precondition failure
does not exist. -/
theorem return_single_zero_width_succeeds :
    Map.return_single (7 : ℚ) 0 5 = ⟨0, 5, []⟩ ∧
    (Map.return_single (7 : ℚ) 0 5).inner.length = 0 := by
  exact ⟨rfl, rfl⟩

/-- C8 amended: `return_single` accepts any dimensions, including
zero, and always succeeds with a grid of exactly `width * height`
cells all equal to `value` (so zero width or height silently yields
an empty grid; the `width>0, height>0` requirement is a caller-side
contract the engine does not enforce). -/
theorem return_single_cells {T : Type} (value : T) (width height i : ℕ)
    (hi : i < width * height) :
    (Map.return_single value width height).width = width ∧
    (Map.return_single value width height).height = height ∧
    (Map.return_single value width height).inner.length = width * height ∧
    (Map.return_single value width height).inner[i]? = some value := by
  refine ⟨rfl, rfl, by simp [Map.return_single], ?_⟩
  simp [Map.return_single, List.getElem?_replicate, hi]

/-- Witness for C8's amended theorem at a concrete input. -/
theorem return_single_cells_witness :
    5 < 2 * 3 ∧ (Map.return_single (9 : ℤ) 2 3).inner[5]? = some 9 :=
  ⟨by decide, (return_single_cells (9 : ℤ) 2 3 5 (by decide)).2.2.2⟩

/-! ## Theorems about `normalize` -/

/-- C10: `normalize` divides by `max - min` without a guard.  At IEEE
`f64` semantics, when `max = min` the result is NaN (if also
`value = min`) or an infinity (otherwise) instead of an error; and
renormalizing a grid whose cells all hold the same finite value `q`
(so that the min/max reduction yields `min = max = q`) produces NaN
in every cell. -/
theorem normalize_degenerate_nan (q v : ℚ) (w h : ℕ) (hne : v ≠ q) :
    normalizeF (.fin q) (.fin q) (.fin q) = .nan ∧
    (normalizeF (.fin v) (.fin q) (.fin q) = .inf false ∨
      normalizeF (.fin v) (.fin q) (.fin q) = .inf true) ∧
    ((Map.return_single (FVal.fin q) w h).and_then
        (fun c => normalizeF c (.fin q) (.fin q))).inner =
      List.replicate (w * h) FVal.nan := by
  have hnan : normalizeF (.fin q) (.fin q) (.fin q) = .nan := by
    simp [normalizeF, FVal.sub, FVal.div]
  refine ⟨hnan, ?_, ?_⟩
  · have hsub : v - q ≠ 0 := sub_ne_zero_of_ne hne
    by_cases hvq : v - q < 0
    · right
      simp [normalizeF, FVal.sub, FVal.div, hsub, hvq]
    · left
      simp [normalizeF, FVal.sub, FVal.div, hsub, hvq]
  · simp [Map.and_then, Map.return_single, List.map_replicate, hnan]

/-- Witness for C10 at a concrete input. -/
theorem normalize_degenerate_nan_witness :
    (7 : ℚ) ≠ 5 ∧
    normalizeF (.fin 5) (.fin 5) (.fin 5) = .nan ∧
    (normalizeF (.fin 7) (.fin 5) (.fin 5) = .inf false ∨
      normalizeF (.fin 7) (.fin 5) (.fin 5) = .inf true) ∧
    ((Map.return_single (FVal.fin 5) 2 2).and_then
        (fun c => normalizeF c (.fin 5) (.fin 5))).inner =
      List.replicate (2 * 2) FVal.nan :=
  ⟨by norm_num, normalize_degenerate_nan 5 7 2 2 (by norm_num)⟩

/-! ## Theorems about the noise field -/

/-- Amplitude sequence exactly as the claim words it: `1.0` at octave
`0`, then cumulative division by `persistence`. -/
def claimAmp (persistence : ℚ) : ℕ → ℚ
  | 0 => 1
  | n + 1 => claimAmp persistence n / persistence

theorem getD_map_range {α : Type} (f : ℕ → α) (w x : ℕ) (d : α)
    (hx : x < w) : ((List.range w).map f).getD x d = f x := by
  rw [List.getD_eq_getElem?_getD, List.getElem?_map,
    List.getElem?_range hx]
  rfl

theorem ampTable_getD (persistence : ℚ) :
    ∀ (n o : ℕ) (a : ℚ), o < n →
      (ampTable persistence n a).getD o 0 = a * claimAmp persistence o := by
  intro n
  induction n with
  | zero => intro o a h; exact absurd h (Nat.not_lt_zero o)
  | succ n ih =>
    intro o a h
    cases o with
    | zero => simp [ampTable, claimAmp]
    | succ o =>
      have ho : o < n := Nat.lt_of_succ_lt_succ h
      calc (ampTable persistence (n + 1) a).getD (o + 1) 0
          = (ampTable persistence n (a / persistence)).getD o 0 := by
            simp [ampTable]
        _ = a / persistence * claimAmp persistence o := ih o _ ho
        _ = a * claimAmp persistence (o + 1) := by
            rw [claimAmp]
            ring

theorem foldl_add_eq_sum {α : Type} (l : List α) (h : α → ℚ) (init : ℚ) :
    l.foldl (fun acc o => acc + h o) init = init + (l.map h).sum := by
  induction l generalizing init with
  | nil => simp
  | cons a l ih =>
    simp [List.foldl_cons, ih, add_assoc]

/-- C4: `generate(x, y)` of a noise field built from
`(width, height, octaves, persistence, lacunarity)` is the square of
the sum, over octaves `o < octaves`, of
`amplitudes[o] · noise3D(lacunarity^o·circleX, lacunarity^o·(y/height),
lacunarity^o·circleZ)`, with `amplitudes` starting at `1` and divided
by `persistence` at each successive octave, and
`(circleX, circleZ) = (cos(2π·x/width)/(width/height),
sin(2π·x/width)/(width/height))`.  The `f64` primitives `cos`, `sin`,
`π` and the 3D simplex noise function are the abstract parameters
`cosA`, `sinA`, `piA`, `noise3`. -/
theorem generate_octave_formula (cosA sinA : ℚ → ℚ) (piA : ℚ)
    (noise3 : ℚ → ℚ → ℚ → ℚ) (width height octaves : ℕ)
    (persistence lacunarity : ℚ) (x y : ℕ)
    (hx : x < width) :
    (SimplexNoiseGenerator.new cosA sinA piA noise3 width height octaves
        persistence lacunarity).generate x y =
      (((List.range octaves).map fun o =>
        claimAmp persistence o *
          noise3
            (lacunarity ^ o *
              (cosA (2 * piA * (x : ℚ) / (width : ℚ)) /
                ((width : ℚ) / (height : ℚ))))
            (lacunarity ^ o * ((y : ℚ) / (height : ℚ)))
            (lacunarity ^ o *
              (sinA (2 * piA * (x : ℚ) / (width : ℚ)) /
                ((width : ℚ) / (height : ℚ))))).sum) ^ 2 := by
  have hangle : (x : ℚ) / (width : ℚ) * 2 * piA =
      2 * piA * (x : ℚ) / (width : ℚ) := by ring
  have hcircle : (SimplexNoiseGenerator.new cosA sinA piA noise3 width
      height octaves persistence lacunarity).circle_coords =
      (List.range width).map (fun w' : ℕ =>
        ((cosA ((w' : ℚ) / (width : ℚ) * 2 * piA) /
            ((width : ℚ) / (height : ℚ)),
          sinA ((w' : ℚ) / (width : ℚ) * 2 * piA) /
            ((width : ℚ) / (height : ℚ))) : ℚ × ℚ)) := rfl
  have hfreqs : (SimplexNoiseGenerator.new cosA sinA piA noise3 width
      height octaves persistence lacunarity).frequencies =
      (List.range octaves).map (fun o : ℕ => lacunarity ^ o) := rfl
  have hamps : (SimplexNoiseGenerator.new cosA sinA piA noise3 width
      height octaves persistence lacunarity).amplitudes =
      ampTable persistence octaves 1 := rfl
  simp only [SimplexNoiseGenerator.generate]
  rw [show (SimplexNoiseGenerator.new cosA sinA piA noise3 width height
      octaves persistence lacunarity).octaves = octaves from rfl,
    show (SimplexNoiseGenerator.new cosA sinA piA noise3 width height
      octaves persistence lacunarity).height = height from rfl,
    hcircle, getD_map_range _ width x (0, 0) hx, foldl_add_eq_sum,
    zero_add]
  congr 1
  congr 1
  apply List.map_congr_left
  intro o ho
  have ho' : o < octaves := List.mem_range.mp ho
  rw [hfreqs, getD_map_range (fun o' : ℕ => lacunarity ^ o') octaves o 0 ho',
    hamps, ampTable_getD persistence octaves o 1 ho', one_mul, hangle]
  rfl

/-- Witness for C4 at concrete parameters and abstract-primitive
instances. -/
theorem generate_octave_formula_witness :
    1 < 2 ∧
    (SimplexNoiseGenerator.new (fun q => q) (fun q => q + 1) 3
        (fun a b c => a + b + c) 2 1 2 2 3).generate 1 0 =
      (((List.range 2).map fun o =>
        claimAmp 2 o *
          ((fun a b c : ℚ => a + b + c)
            ((3 : ℚ) ^ o *
              ((fun q : ℚ => q) (2 * 3 * (1 : ℚ) / (2 : ℚ)) /
                ((2 : ℚ) / (1 : ℚ))))
            ((3 : ℚ) ^ o * ((0 : ℚ) / (1 : ℚ)))
            ((3 : ℚ) ^ o *
              ((fun q : ℚ => q + 1) (2 * 3 * (1 : ℚ) / (2 : ℚ)) /
                ((2 : ℚ) / (1 : ℚ)))))).sum) ^ 2 := by
  refine ⟨by decide, ?_⟩
  have h := generate_octave_formula (fun q => q) (fun q => q + 1) 3
    (fun a b c => a + b + c) 2 1 2 2 3 1 0 (by decide)
  simpa using h

/-- C9: every sample of the noise field is nonnegative: the
accumulated octave sum is squared before being returned, so whatever
the underlying 3D noise primitive produces, `generate` never returns
a negative value. -/
theorem generate_nonneg (cosA sinA : ℚ → ℚ) (piA : ℚ)
    (noise3 : ℚ → ℚ → ℚ → ℚ) (width height octaves : ℕ)
    (persistence lacunarity : ℚ) (x y : ℕ)
    (_hw : 0 < width) (_hh : 0 < height) (_hper : 0 < persistence)
    (_hlac : 0 < lacunarity) (_hx : x < width) :
    0 ≤ (SimplexNoiseGenerator.new cosA sinA piA noise3 width height
        octaves persistence lacunarity).generate x y := by
  simp only [SimplexNoiseGenerator.generate]
  exact sq_nonneg _

/-- Witness for C9 at concrete parameters. -/
theorem generate_nonneg_witness :
    0 < 2 ∧ 0 < 1 ∧ (0 : ℚ) < 2 ∧ (0 : ℚ) < 3 ∧ 1 < 2 ∧
    0 ≤ (SimplexNoiseGenerator.new (fun q => q) (fun q => q + 1) 3
        (fun a b c => a + b + c) 2 1 2 2 3).generate 1 0 :=
  ⟨by decide, by decide, by norm_num, by norm_num, by decide,
    generate_nonneg (fun q => q) (fun q => q + 1) 3
      (fun a b c => a + b + c) 2 1 2 2 3 1 0 (by decide) (by decide)
      (by norm_num) (by norm_num) (by decide)⟩

/-! ## Theorems about `from_biomes` thresholds -/

/-- Cumulative sums of a weight list, starting from accumulator
`acc`: entry `i` is `acc` plus the sum of the first `i + 1`
weights. -/
def cumSums (acc : ℚ) : List ℚ → List ℚ
  | [] => []
  | w :: ws => (acc + w) :: cumSums (acc + w) ws

theorem cumSums_getLast? (ws : List ℚ) :
    ∀ acc : ℚ, ws ≠ [] → (cumSums acc ws).getLast? = some (acc + ws.sum) := by
  induction ws with
  | nil => intro acc h; exact absurd rfl h
  | cons w ws ih =>
    intro acc _
    cases ws with
    | nil => simp [cumSums]
    | cons w' ws' =>
      have h2 : cumSums (acc + w) (w' :: ws') =
          (acc + w + w') :: cumSums (acc + w + w') ws' := rfl
      rw [cumSums, h2, List.getLast?_cons_cons, ← h2,
        ih (acc + w) (by simp)]
      simp [add_assoc]

theorem cumSums_cons_chain (ws : List ℚ) (hws : ∀ w ∈ ws, 0 < w) :
    ∀ acc : ℚ, List.Chain' (· < ·) (acc :: cumSums acc ws) := by
  induction ws with
  | nil => intro acc; simp [cumSums]
  | cons w ws ih =>
    intro acc
    have hw : 0 < w := hws w (List.mem_cons_self w ws)
    have hrest : ∀ w' ∈ ws, 0 < w' := fun w' hw' =>
      hws w' (List.mem_cons_of_mem w hw')
    rw [cumSums, List.chain'_cons]
    exact ⟨by linarith, ih hrest (acc + w)⟩

theorem cumSums_chain (ws : List ℚ) (hws : ∀ w ∈ ws, 0 < w) (acc : ℚ) :
    List.Chain' (· < ·) (cumSums acc ws) :=
  (cumSums_cons_chain ws hws acc).tail

theorem chain_map_div (l : List ℚ) (t : ℚ) (ht : 0 < t)
    (hl : List.Chain' (· < ·) l) :
    List.Chain' (· < ·) (l.map (· / t)) := by
  rw [List.chain'_map]
  exact hl.imp fun a b hab => by
    exact (div_lt_div_iff_of_pos_right ht).mpr hab

theorem total_elevation_eq_sum (b : Biomes) :
    b.total_elevation = (b.elevation_levels.map (·.elevation)).sum := by
  rw [Biomes.total_elevation, foldl_add_eq_sum, zero_add]

theorem total_moisture_eq_sum (l : ElevationLevel) :
    l.total_moisture = (l.moisture_levels.map (·.moisture)).sum := by
  rw [ElevationLevel.total_moisture, foldl_add_eq_sum, zero_add]

theorem buildMoistureGradients_cons_inv (total cum : ℚ)
    (l : MoistureLevel) (ls : List MoistureLevel)
    (mgs : List MoistureGradient)
    (h : buildMoistureGradients total cum (l :: ls) = some mgs) :
    ∃ gr tail, get_color_func l.gradient = some gr ∧
      buildMoistureGradients total (cum + l.moisture) ls = some tail ∧
      mgs = { moisture := (cum + l.moisture) / total,
              get_color := gr } :: tail := by
  simp only [buildMoistureGradients] at h
  cases hgr : get_color_func l.gradient with
  | none => rw [hgr] at h; simp at h
  | some gr =>
    rw [hgr] at h
    cases htail : buildMoistureGradients total (cum + l.moisture) ls with
    | none => rw [htail] at h; simp at h
    | some tail =>
      rw [htail] at h
      exact ⟨gr, tail, rfl, rfl, (Option.some.inj h).symm⟩

theorem buildElevationRanges_cons_inv (total cum : ℚ)
    (l : ElevationLevel) (ls : List ElevationLevel)
    (rs : List ElevationRange)
    (h : buildElevationRanges total cum (l :: ls) = some rs) :
    ∃ mgs tail,
      buildMoistureGradients l.total_moisture 0 l.moisture_levels =
        some mgs ∧
      buildElevationRanges total (cum + l.elevation) ls = some tail ∧
      rs = { elevation := (cum + l.elevation) / total,
             moisture_gradients := mgs } :: tail := by
  simp only [buildElevationRanges] at h
  cases hmgs : buildMoistureGradients l.total_moisture 0 l.moisture_levels with
  | none => rw [hmgs] at h; simp at h
  | some mgs =>
    rw [hmgs] at h
    cases htail : buildElevationRanges total (cum + l.elevation) ls with
    | none => rw [htail] at h; simp at h
    | some tail =>
      rw [htail] at h
      exact ⟨mgs, tail, rfl, rfl, (Option.some.inj h).symm⟩

theorem buildMoistureGradients_thresholds (total : ℚ) :
    ∀ (levels : List MoistureLevel) (cum : ℚ)
      (mgs : List MoistureGradient),
      buildMoistureGradients total cum levels = some mgs →
      mgs.map (·.moisture) =
        (cumSums cum (levels.map (·.moisture))).map (· / total) := by
  intro levels
  induction levels with
  | nil =>
    intro cum mgs h
    simp only [buildMoistureGradients, Option.some.injEq] at h
    subst h
    simp [cumSums]
  | cons l ls ih =>
    intro cum mgs h
    obtain ⟨gr, tail, _, htail, hmgs⟩ :=
      buildMoistureGradients_cons_inv total cum l ls mgs h
    subst hmgs
    simp only [List.map_cons, cumSums, ih _ _ htail]

theorem buildElevationRanges_thresholds (total : ℚ) :
    ∀ (levels : List ElevationLevel) (cum : ℚ)
      (rs : List ElevationRange),
      buildElevationRanges total cum levels = some rs →
      rs.map (·.elevation) =
        (cumSums cum (levels.map (·.elevation))).map (· / total) := by
  intro levels
  induction levels with
  | nil =>
    intro cum rs h
    simp only [buildElevationRanges, Option.some.injEq] at h
    subst h
    simp [cumSums]
  | cons l ls ih =>
    intro cum rs h
    obtain ⟨mgs, tail, _, htail, hrs⟩ :=
      buildElevationRanges_cons_inv total cum l ls rs h
    subst hrs
    simp only [List.map_cons, cumSums, ih _ _ htail]

theorem buildElevationRanges_moisture (total : ℚ) :
    ∀ (levels : List ElevationLevel) (cum : ℚ)
      (rs : List ElevationRange),
      buildElevationRanges total cum levels = some rs →
      List.Forall₂ (fun (r : ElevationRange) (l : ElevationLevel) =>
        r.moisture_gradients.map (·.moisture) =
          (cumSums 0 (l.moisture_levels.map (·.moisture))).map
            (· / l.total_moisture)) rs levels := by
  intro levels
  induction levels with
  | nil =>
    intro cum rs h
    simp only [buildElevationRanges, Option.some.injEq] at h
    subst h
    exact List.Forall₂.nil
  | cons l ls ih =>
    intro cum rs h
    obtain ⟨mgs, tail, hmgs, htail, hrs⟩ :=
      buildElevationRanges_cons_inv total cum l ls rs h
    subst hrs
    exact List.Forall₂.cons
      (buildMoistureGradients_thresholds l.total_moisture
        l.moisture_levels 0 mgs hmgs)
      (ih _ _ htail)

theorem buildElevationRanges_moisture_chain (total : ℚ) :
    ∀ (levels : List ElevationLevel) (cum : ℚ)
      (rs : List ElevationRange),
      buildElevationRanges total cum levels = some rs →
      (∀ l ∈ levels, ∀ m ∈ l.moisture_levels, 0 < m.moisture) →
      ∀ r ∈ rs,
        List.Chain' (· < ·) (r.moisture_gradients.map (·.moisture)) := by
  intro levels
  induction levels with
  | nil =>
    intro cum rs h _ r hr
    simp only [buildElevationRanges, Option.some.injEq] at h
    subst h
    exact absurd hr (List.not_mem_nil r)
  | cons l ls ih =>
    intro cum rs h hmpos r hr
    obtain ⟨mgs, tail, hmgs, htail, hrs⟩ :=
      buildElevationRanges_cons_inv total cum l ls rs h
    subst hrs
    rcases List.mem_cons.mp hr with hhead | htl
    · subst hhead
      show List.Chain' (· < ·) (mgs.map (·.moisture))
      rw [buildMoistureGradients_thresholds l.total_moisture
        l.moisture_levels 0 mgs hmgs]
      by_cases hml : l.moisture_levels = []
      · simp [hml, cumSums]
      · have hall : ∀ w ∈ (l.moisture_levels.map (·.moisture)), 0 < w := by
          intro w hw
          obtain ⟨m', hm', hw'⟩ := List.mem_map.mp hw
          rw [← hw']
          exact hmpos l (List.mem_cons_self l ls) m' hm'
        have htot : 0 < l.total_moisture := by
          rw [total_moisture_eq_sum]
          exact List.sum_pos _ hall (by simpa using hml)
        exact chain_map_div _ _ htot (cumSums_chain _ hall 0)
    · exact ih _ _ htail
        (fun l' hl' => hmpos l' (List.mem_cons_of_mem l hl')) r htl

theorem from_biomes_inv (b : Biomes) (ev : ColorEvaluator)
    (hev : ColorEvaluator.from_biomes b = some ev) :
    buildElevationRanges b.total_elevation 0 b.elevation_levels =
      some ev.elevation_ranges := by
  simp only [ColorEvaluator.from_biomes] at hev
  cases hb : buildElevationRanges b.total_elevation 0 b.elevation_levels with
  | none => rw [hb] at hev; simp at hev
  | some rs =>
    rw [hb] at hev
    have h2 := Option.some.inj hev
    rw [← h2]

/-- C6: for a band configuration with positive elevation and moisture
weights that builds successfully, `from_biomes` gives band `i` the
elevation threshold (sum of the first `i+1` weights) divided by the
total elevation weight, and likewise each moisture band within an
elevation level the cumulative moisture weight divided by that
level's total moisture weight; the elevation threshold sequence and
every moisture threshold sequence are strictly increasing, and the
last elevation threshold is `1`. -/
theorem from_biomes_thresholds (b : Biomes) (ev : ColorEvaluator)
    (hev : ColorEvaluator.from_biomes b = some ev)
    (hpos : ∀ l ∈ b.elevation_levels, 0 < l.elevation)
    (hmpos : ∀ l ∈ b.elevation_levels, ∀ m ∈ l.moisture_levels,
      0 < m.moisture)
    (hne : b.elevation_levels ≠ []) :
    ev.elevation_ranges.map (·.elevation) =
      (cumSums 0 (b.elevation_levels.map (·.elevation))).map
        (· / b.total_elevation) ∧
    List.Forall₂ (fun (r : ElevationRange) (l : ElevationLevel) =>
      r.moisture_gradients.map (·.moisture) =
        (cumSums 0 (l.moisture_levels.map (·.moisture))).map
          (· / l.total_moisture)) ev.elevation_ranges b.elevation_levels ∧
    List.Chain' (· < ·) (ev.elevation_ranges.map (·.elevation)) ∧
    (∀ r ∈ ev.elevation_ranges,
      List.Chain' (· < ·) (r.moisture_gradients.map (·.moisture))) ∧
    (ev.elevation_ranges.map (·.elevation)).getLast? = some 1 := by
  have hb := from_biomes_inv b ev hev
  have hall : ∀ w ∈ (b.elevation_levels.map (·.elevation)), 0 < w := by
    intro w hw
    obtain ⟨l, hl, hw'⟩ := List.mem_map.mp hw
    rw [← hw']
    exact hpos l hl
  have hmapne : b.elevation_levels.map (·.elevation) ≠ [] := by
    intro hcon
    exact hne (List.map_eq_nil_iff.mp hcon)
  have htot : 0 < b.total_elevation := by
    rw [total_elevation_eq_sum]
    exact List.sum_pos _ hall hmapne
  have h1 := buildElevationRanges_thresholds b.total_elevation
    b.elevation_levels 0 ev.elevation_ranges hb
  refine ⟨h1, ?_, ?_, ?_, ?_⟩
  · exact buildElevationRanges_moisture b.total_elevation
      b.elevation_levels 0 ev.elevation_ranges hb
  · rw [h1]
    exact chain_map_div _ _ htot (cumSums_chain _ hall 0)
  · exact buildElevationRanges_moisture_chain b.total_elevation
      b.elevation_levels 0 ev.elevation_ranges hb hmpos
  · rw [h1, List.getLast?_map, cumSums_getLast? _ 0 hmapne]
    have hsum : (b.elevation_levels.map (·.elevation)).sum =
        b.total_elevation := (total_elevation_eq_sum b).symm
    simp [hsum, div_self (ne_of_gt htot)]

/-! ## Theorems about the color evaluator -/

theorem parse_bw : get_color_func bwStrings = some bwGradient := by
  simp [get_color_func, bwStrings, colorFromHtml, hexDigitVal, bwGradient,
    blackC, whiteC]
  norm_num

theorem parse_white :
    get_color_func ["#ffffff", "#ffffff"] = some whiteGradient := by
  simp [get_color_func, colorFromHtml, hexDigitVal, whiteGradient, whiteC]
  norm_num

theorem from_biomes_oneBandBW :
    ColorEvaluator.from_biomes oneBandBW = some oneBandEV := by
  simp [ColorEvaluator.from_biomes, oneBandBW, oneBandEV,
    buildElevationRanges, buildMoistureGradients, parse_bw,
    Biomes.total_elevation, ElevationLevel.total_moisture]

theorem from_biomes_twoBandBW :
    ColorEvaluator.from_biomes twoBandBW = some twoBandEV := by
  simp [ColorEvaluator.from_biomes, twoBandBW, twoBandEV,
    buildElevationRanges, buildMoistureGradients, parse_bw,
    Biomes.total_elevation, ElevationLevel.total_moisture]
  norm_num

theorem from_biomes_allWhiteBand :
    ColorEvaluator.from_biomes allWhiteBand = some allWhiteEV := by
  simp [ColorEvaluator.from_biomes, allWhiteBand, allWhiteEV,
    buildElevationRanges, buildMoistureGradients, parse_white,
    Biomes.total_elevation, ElevationLevel.total_moisture]

theorem gradient_at_bw (e : ℚ) (he0 : 0 ≤ e) (he1 : e ≤ 1) :
    Gradient.at [blackC, whiteC] e = ⟨e, e, e⟩ := by
  simp only [Gradient.at]
  rw [min_eq_right he1, max_eq_right he0]
  norm_num [blackC, whiteC, Color.lerp]

/-- C3 counterexample: the evaluator built from one elevation band
(weight 1) with one moisture band (weight 1, gradient black-to-white)
returns `RGB(127,127,127)` at `(0.5, 0.0)`, not `RGB(128,128,128)`:
`gradient_to_rgb` converts each channel with the Rust saturating cast
`(channel * 255.0) as u8`, which truncates toward zero instead of
rounding `127.5` to the nearest integer. -/
theorem evaluate_midpoint_not_128 :
    ColorEvaluator.from_biomes oneBandBW = some oneBandEV ∧
    oneBandEV.evaluate (1/2) 0 = ⟨127, 127, 127⟩ ∧
    oneBandEV.evaluate (1/2) 0 ≠ ⟨128, 128, 128⟩ := by
  refine ⟨from_biomes_oneBandBW, ?_, ?_⟩
  · norm_num [ColorEvaluator.evaluate, oneBandEV, evalElevationLoop,
      evalMoistureLoop, normalize, gradient_to_rgb, Gradient.at,
      bwGradient, blackC, whiteC, Color.lerp, f64AsU8]
    decide
  · norm_num [ColorEvaluator.evaluate, oneBandEV, evalElevationLoop,
      evalMoistureLoop, normalize, gradient_to_rgb, Gradient.at,
      bwGradient, blackC, whiteC, Color.lerp, f64AsU8]
    decide

/-- C3 amended: gradient colors are converted to 8-bit channels by
the Rust saturating cast `as u8` — truncation toward zero, clamped to
`[0,255]` — not by rounding to nearest; consequently the evaluator
with one elevation band (weight 1) containing one moisture band
(weight 1, gradient black-to-white) maps `(e, m) ∈ [0,1]×[0,1]` to
the gray value `⌊e·255⌋`, so `evaluate(0.5, 0.0) = RGB(127,127,127)`. -/
theorem evaluate_single_band_truncated_gray (e m : ℚ)
    (he0 : 0 ≤ e) (he1 : e ≤ 1) (_hm0 : 0 ≤ m) (hm1 : m ≤ 1) :
    oneBandEV.evaluate e m =
      ⟨(⌊e * 255⌋).toNat, (⌊e * 255⌋).toNat, (⌊e * 255⌋).toNat⟩ := by
  have hfl0 : (0 : ℤ) ≤ ⌊e * 255⌋ := Int.floor_nonneg.mpr (by positivity)
  have hfl255 : ⌊e * 255⌋ ≤ 255 := by
    have h := Int.floor_le_floor (α := ℚ) (show e * 255 ≤ 255 by nlinarith)
    simpa using h
  simp only [ColorEvaluator.evaluate, oneBandEV, evalElevationLoop,
    evalMoistureLoop]
  rw [if_pos he1, if_pos hm1]
  have hnorm : normalize e 0 (0 + 1) = e := by norm_num [normalize]
  rw [hnorm]
  simp only [gradient_to_rgb, show bwGradient = [blackC, whiteC] from rfl,
    gradient_at_bw e he0 he1]
  simp only [f64AsU8, max_eq_right hfl0, min_eq_right hfl255]

/-- Witness for C3's amended theorem at `(1/2, 0)`. -/
theorem evaluate_single_band_truncated_gray_witness :
    (0 : ℚ) ≤ 1/2 ∧ (1 : ℚ)/2 ≤ 1 ∧
    oneBandEV.evaluate (1/2) 0 =
      ⟨(⌊(1 : ℚ)/2 * 255⌋).toNat, (⌊(1 : ℚ)/2 * 255⌋).toNat,
        (⌊(1 : ℚ)/2 * 255⌋).toNat⟩ :=
  ⟨by norm_num, by norm_num,
    evaluate_single_band_truncated_gray (1/2) 0 (by norm_num) (by norm_num)
      (by norm_num) (by norm_num)⟩

/-- C1: in `ColorEvaluator::evaluate` the running accumulator sums the
*cumulative thresholds* of the skipped bands, so the elevation of the
band at index `i ≥ 1` is normalized into
`[Σ_{j<i} threshold_j, Σ_{j<i} threshold_j + threshold_i]`, not into
the claimed `[threshold_{i-1}, threshold_i]`.  With two equal-weight
bands (thresholds `1/2` and `1`) and input `(3/4, 0)`, the second
band is selected and the code computes
`normalize(3/4, 1/2, 1/2 + 1) = 1/4` (gray 63), while the claimed
sub-range `[1/2, 1]` yields `t = 1/2` (gray 127). -/
theorem evaluate_normalization_sums_thresholds :
    ColorEvaluator.from_biomes twoBandBW = some twoBandEV ∧
    twoBandEV.elevation_ranges.map (·.elevation) = [1/2, 1] ∧
    twoBandEV.evaluate (3/4) 0 =
      gradient_to_rgb bwGradient (normalize (3/4) (1/2) (1/2 + 1)) ∧
    twoBandEV.evaluate (3/4) 0 = ⟨63, 63, 63⟩ ∧
    gradient_to_rgb bwGradient (normalize (3/4) (1/2) 1) =
      ⟨127, 127, 127⟩ ∧
    twoBandEV.evaluate (3/4) 0 ≠
      gradient_to_rgb bwGradient (normalize (3/4) (1/2) 1) := by
  have hcode : twoBandEV.evaluate (3/4) 0 = ⟨63, 63, 63⟩ := by
    norm_num [ColorEvaluator.evaluate, twoBandEV, evalElevationLoop,
      evalMoistureLoop, normalize, gradient_to_rgb, Gradient.at,
      bwGradient, blackC, whiteC, Color.lerp, f64AsU8]
    decide
  have hclaim : gradient_to_rgb bwGradient (normalize (3/4) (1/2) 1) =
      ⟨127, 127, 127⟩ := by
    norm_num [normalize, gradient_to_rgb, Gradient.at, bwGradient,
      blackC, whiteC, Color.lerp, f64AsU8]
    decide
  refine ⟨from_biomes_twoBandBW, by norm_num [twoBandEV], ?_, hcode, hclaim, ?_⟩
  · rw [hcode]
    norm_num [normalize, gradient_to_rgb, Gradient.at, bwGradient,
      blackC, whiteC, Color.lerp, f64AsU8]
    decide
  · rw [hcode, hclaim]
    decide

/-- C2: when elevation exceeds every elevation band's threshold (or
moisture exceeds every moisture threshold within the selected band),
`evaluate` returns the *initial default* `Rgb([0,0,0])` — the loops
fall through and `final_color` keeps its starting value — instead of
falling back to the last band, whose gradient here is all white
(`RGB(255,255,255)` at every `t`). -/
theorem evaluate_out_of_range_returns_default_black :
    ColorEvaluator.from_biomes allWhiteBand = some allWhiteEV ∧
    allWhiteEV.evaluate 2 0 = ⟨0, 0, 0⟩ ∧
    allWhiteEV.evaluate (1/2) 2 = ⟨0, 0, 0⟩ ∧
    gradient_to_rgb whiteGradient (normalize 2 0 (0 + 1)) =
      ⟨255, 255, 255⟩ ∧
    (⟨0, 0, 0⟩ : Rgb) ≠ ⟨255, 255, 255⟩ := by
  refine ⟨from_biomes_allWhiteBand, ?_, ?_, ?_, by decide⟩
  · norm_num [ColorEvaluator.evaluate, allWhiteEV, evalElevationLoop,
      evalMoistureLoop]
  · norm_num [ColorEvaluator.evaluate, allWhiteEV, evalElevationLoop,
      evalMoistureLoop]
  · norm_num [normalize, gradient_to_rgb, Gradient.at, whiteGradient,
      whiteC, Color.lerp, f64AsU8]
    decide

/-! ## Theorems about configuration validation -/

/-- C7: `Config::validate` rejects each invalid case with its own
named error kind — persistence `≤ 0` (`InvalidPersistence`),
lacunarity `≤ 0` (`InvalidLacunarity`), elevation weight `≤ 0`
(`InvalidElevation`), moisture weight `≤ 0` (`InvalidMoisture`), an
unparsable color string (`InvalidColor`), an empty gradient list
(`MissingColors`), missing elevation levels
(`MissingElevationLevels`), missing moisture levels
(`MissingMoistureLevels`) — and accepts a minimal well-formed
configuration. -/
theorem config_validate_cases :
    (Config.mk [] [("n", ⟨6, 0, 3⟩)] []).validate =
      .error (.InvalidPersistence 0) ∧
    (Config.mk [] [("n", ⟨6, 2, -1⟩)] []).validate =
      .error (.InvalidLacunarity (-1)) ∧
    (Config.mk [] [] [("m", ⟨[⟨0, [⟨1, ["#000000"]⟩]⟩]⟩)]).validate =
      .error (.InvalidElevation 0) ∧
    (Config.mk [] [] [("m", ⟨[⟨1, [⟨-2, ["#000000"]⟩]⟩]⟩)]).validate =
      .error (.InvalidMoisture (-2)) ∧
    (Config.mk [] [] [("m", ⟨[⟨1, [⟨1, ["zzz"]⟩]⟩]⟩)]).validate =
      .error (.InvalidColor "zzz") ∧
    (Config.mk [] [] [("m", ⟨[⟨1, [⟨1, []⟩]⟩]⟩)]).validate =
      .error .MissingColors ∧
    (Config.mk [("g", ⟨[]⟩)] [] []).validate = .error .MissingColors ∧
    (Config.mk [] [] [("m", ⟨[]⟩)]).validate =
      .error .MissingElevationLevels ∧
    (Config.mk [] [] [("m", ⟨[⟨1, []⟩]⟩)]).validate =
      .error .MissingMoistureLevels ∧
    (Config.mk [("ocean", ⟨["#0a46ad"]⟩)]
      [("elevation_noise", ⟨6, 2, 3⟩)]
      [("default", ⟨[⟨1, [⟨1, ["#000000"]⟩]⟩]⟩)]).validate = .ok () := by
  refine ⟨?_, ?_, ?_, ?_, ?_, ?_, ?_, ?_, ?_, ?_⟩ <;>
    first
      | (simp [Config.validate, validateAll, SimpleBiome.validate,
          Noise.validate, Biomes.validate, ElevationLevel.validate,
          MoistureLevel.validate, validateColors, colorFromHtml,
          hexDigitVal, Bind.bind, Except.bind]
         norm_num)
      | simp [Config.validate, validateAll, SimpleBiome.validate,
          Noise.validate, Biomes.validate, ElevationLevel.validate,
          MoistureLevel.validate, validateColors, colorFromHtml,
          hexDigitVal, Bind.bind, Except.bind]

/-- Witness instantiating C6 on the two-band configuration. -/
theorem from_biomes_thresholds_witness :
    ColorEvaluator.from_biomes twoBandBW = some twoBandEV ∧
    twoBandEV.elevation_ranges.map (·.elevation) =
      (cumSums 0 (twoBandBW.elevation_levels.map (·.elevation))).map
        (· / twoBandBW.total_elevation) ∧
    List.Chain' (· < ·) (twoBandEV.elevation_ranges.map (·.elevation)) ∧
    (twoBandEV.elevation_ranges.map (·.elevation)).getLast? = some 1 := by
  have h := from_biomes_thresholds twoBandBW twoBandEV from_biomes_twoBandBW
    (by
      intro l hl
      simp [twoBandBW] at hl
      subst hl
      norm_num)
    (by
      intro l hl m hm
      simp [twoBandBW] at hl
      subst hl
      simp at hm
      subst hm
      norm_num)
    (by simp [twoBandBW])
  exact ⟨from_biomes_twoBandBW, h.1, h.2.2.1, h.2.2.2.2⟩

end Ficture
